import Mathlib

set_option autoImplicit false

namespace Speech2Text

/-- JSON-like values, the shape of documents handled by `SettingsManager`
(`json.load` / `json.dump`).  Numbers are modelled as integers: the default
schema uses only integral numbers (the float `0.0` is modelled as `0`) and no
claim performs numeric computation. -/
inductive JVal where
  | jstr (s : String)
  | jint (n : Int)
  | jbool (b : Bool)
  | jnull
  | jobj (fields : List (String × JVal))
deriving Repr

abbrev JObj := List (String × JVal)

/-- Association-list lookup, Python `d[k]` / `k in d` on a dict. -/
def lookupJ (o : JObj) (k : String) : Option JVal :=
  match o with
  | [] => none
  | (k', v) :: rest => if k' = k then some v else lookupJ rest k

/-- Python `d[k] = v`: replace the first binding of `k`, else append
(insertion order of dicts). -/
def setKeyJ (o : JObj) (k : String) (v : JVal) : JObj :=
  match o with
  | [] => [(k, v)]
  | (k', v') :: rest => if k' = k then (k, v) :: rest else (k', v') :: setKeyJ rest k v

/-! ## Bytes and strings

Python `str.encode()` / `bytes.decode()`.  A byte string is a `List Nat`
(each element < 256); a `str` is identified with its list of code points,
which coincides with its UTF-8 bytes on the ASCII data handled here
(base64 text and JSON keys). -/

def strBytes (s : String) : List Nat := s.data.map Char.toNat

def bytesToStr (l : List Nat) : String := String.mk (l.map Char.ofNat)

/-! ## Base64url (`base64.urlsafe_b64encode` / `base64.urlsafe_b64decode`)

`_get_encryption_key`, `_encrypt_value` and `_decrypt_value` in
`settings.py` move every key and ciphertext through these two functions,
so they are modelled concretely.  Characters are byte values (`Nat`). -/

/-- Sextet (0..63) to URL-safe base64 alphabet byte. -/
def charOfSextet (s : Nat) : Nat :=
  if s < 26 then 65 + s
  else if s < 52 then 97 + (s - 26)
  else if s < 62 then 48 + (s - 52)
  else if s = 62 then 45
  else 95

/-- Alphabet byte back to sextet.  `urlsafe_b64decode` translates `-`/`_` to
`+`/`/` and then decodes with the standard alphabet, so all four bytes are
accepted. -/
def sextetOfChar (c : Nat) : Option Nat :=
  if 65 ≤ c ∧ c ≤ 90 then some (c - 65)
  else if 97 ≤ c ∧ c ≤ 122 then some (c - 97 + 26)
  else if 48 ≤ c ∧ c ≤ 57 then some (c - 48 + 52)
  else if c = 45 ∨ c = 43 then some 62
  else if c = 95 ∨ c = 47 then some 63
  else none

/-- Bytes to sextets, three bytes per four sextets, final partial group
encoded into two or three sextets. -/
def toSextets : List Nat → List Nat
  | [] => []
  | [a] => [a / 4, a % 4 * 16]
  | [a, b] => [a / 4, a % 4 * 16 + b / 16, b % 16 * 4]
  | a :: b :: c :: rest =>
      (a / 4) :: (a % 4 * 16 + b / 16) :: (b % 16 * 4 + c / 64) :: (c % 64) :: toSextets rest

/-- Sextets back to bytes, four sextets per three bytes; a trailing group of
two or three sextets yields one or two bytes. -/
def fromSextets : List Nat → List Nat
  | [] => []
  | [_] => []
  | [s0, s1] => [s0 * 4 + s1 / 16]
  | [s0, s1, s2] => [s0 * 4 + s1 / 16, s1 % 16 * 16 + s2 / 4]
  | s0 :: s1 :: s2 :: s3 :: rest =>
      (s0 * 4 + s1 / 16) :: (s1 % 16 * 16 + s2 / 4) :: (s2 % 4 * 64 + s3) :: fromSextets rest

/-- Model of `base64.urlsafe_b64encode`: bytes to base64url bytes with `=` (61)
padding to a multiple of four characters. -/
def b64encode (bs : List Nat) : List Nat :=
  (toSextets bs).map charOfSextet ++ List.replicate ((3 - bs.length % 3) % 3) 61

/-- Model of `base64.urlsafe_b64decode` (CPython's lenient `binascii.a2b_base64`):
bytes outside the alphabet are discarded, `=` counts as padding, the total
of data and padding characters must be a multiple of four and the data
remainder cannot be one; `none` models the raised `binascii.Error`. -/
def b64decode (input : List Nat) : Option (List Nat) :=
  let ss := input.filterMap sextetOfChar
  let pads := (input.filter (fun c => c = 61)).length
  if (ss.length + pads) % 4 = 0 ∧ ss.length % 4 ≠ 1 then some (fromSextets ss)
  else none

/-! ## Settings documents (`SettingsManager`, pure view)

Documents are JSON objects as association lists in insertion order.  This
pure view is observationally equivalent to Python for a single document
read through `get` (the in-place `_deep_update` mutates exactly the result
document); sharing of sub-dicts between `self.defaults` and
`self.settings` is modelled separately by the heap embedding below. -/

/-- Python truthiness (`if not encrypted_value`). -/
def pyTruthy : JVal → Bool
  | JVal.jstr s => !(s == "")
  | JVal.jint n => !(n == 0)
  | JVal.jbool b => b
  | JVal.jnull => false
  | JVal.jobj [] => false
  | JVal.jobj (_ :: _) => true

/-- The walk of `SettingsManager.get`: follow `path` (the list produced by
`key.split('.')`) through nested dicts; `none` models the fallback to the
`default` argument. -/
def getPath : JVal → List String → Option JVal
  | v, [] => some v
  | JVal.jobj o, k :: rest =>
      match lookupJ o k with
      | some v => getPath v rest
      | none => none
  | _, _ :: _ => none

/-- Model of `SettingsManager.get(key, default)`. -/
def getJ (doc : JObj) (path : List String) (dflt : JVal) : JVal :=
  (getPath (JVal.jobj doc) path).getD dflt

mutual

/-- Model of `SettingsManager._deep_update`: iterate over the source dict, recursing
where both sides hold dicts (`mergeVal`), otherwise assigning the source
value. -/
def deep_update (target : JObj) : JObj → JObj
  | [] => target
  | (k, v) :: rest => deep_update (setKeyJ target k (mergeVal (lookupJ target k) v)) rest
  termination_by l => sizeOf l

/-- The body of `_deep_update`'s loop for one key: recurse when the target
holds a dict at the key and the source value is a dict, else the source
value replaces. -/
def mergeVal : Option JVal → JVal → JVal
  | some (JVal.jobj t), JVal.jobj s => JVal.jobj (deep_update t s)
  | _, v => v
  termination_by _ v => sizeOf v

end

/-- The `defaults` document of `SettingsManager.__init__`; `home` stands for
the environment-dependent `str(Path.home() / "Documents")`. -/
def defaults (home : String) : JObj :=
  [("api_key", JVal.jstr ""),
   ("audio", JVal.jobj
     [("sample_rate", JVal.jint 44100), ("channels", JVal.jint 1),
      ("chunk_size", JVal.jint 1024), ("format", JVal.jstr "paInt16")]),
   ("transcription", JVal.jobj
     [("language", JVal.jstr "en"), ("model", JVal.jstr "whisper-1"),
      ("temperature", JVal.jint 0), ("prompt", JVal.jstr "")]),
   ("ui", JVal.jobj
     [("window_geometry", JVal.jstr "600x500"), ("theme", JVal.jstr "default")]),
   ("output", JVal.jobj
     [("auto_save", JVal.jbool false), ("save_directory", JVal.jstr home),
      ("file_format", JVal.jstr "txt")])]

/-- Outcome of opening and JSON-parsing a file, as observed by
`_load_settings`, `import_settings` and `_get_encryption_key`. -/
inductive FileState where
  | missing
  | readError
  | decodeError
  | parseError
  | parsed (v : JVal)

/-- Python exceptions that can escape the modelled functions. -/
inductive PyExc where
  | ioError
  | unicodeDecodeError
  | jsonDecodeError
  | keyError
  | typeError
  | attributeError
  | binasciiError
  | valueError
deriving Repr, DecidableEq

/-- Model of `SettingsManager._load_settings`.  `missing` hits the early
`defaults.copy()` return; `IOError` and `json.JSONDecodeError` are caught
(`defaults.copy()` again); a `UnicodeDecodeError` from reading non-UTF-8
bytes and the `AttributeError` from `_deep_update` on a non-dict document
are not caught. -/
def load_settings (home : String) (cfg : FileState) : Except PyExc JObj :=
  match cfg with
  | FileState.missing => Except.ok (defaults home)
  | FileState.readError => Except.ok (defaults home)
  | FileState.parseError => Except.ok (defaults home)
  | FileState.decodeError => Except.error PyExc.unicodeDecodeError
  | FileState.parsed (JVal.jobj o) => Except.ok (deep_update (defaults home) o)
  | FileState.parsed _ => Except.error PyExc.attributeError

/-- Python `del o[k]` for unique-keyed dicts, and the no-op when `k` is
absent (`if "api_key" in imported_settings: del ...`). -/
def delKey (o : JObj) (k : String) : JObj :=
  o.filter (fun kv => !(kv.1 == k))

/-- Model of `SettingsManager.import_settings`.  A missing file raises
`FileNotFoundError`, an `IOError`, which is caught. -/
def import_settings (doc : JObj) (file : FileState) : Except PyExc (Bool × JObj) :=
  match file with
  | FileState.missing => Except.ok (false, doc)
  | FileState.readError => Except.ok (false, doc)
  | FileState.parseError => Except.ok (false, doc)
  | FileState.decodeError => Except.error PyExc.unicodeDecodeError
  | FileState.parsed (JVal.jobj o) => Except.ok (true, deep_update doc (delKey o "api_key"))
  | FileState.parsed _ => Except.error PyExc.typeError

/-- Model of `SettingsManager.export_settings`: on success the written document is
the shallow-copied settings with `api_key` replaced by the empty string;
`writeOk = false` models `open`/`json.dump` raising `IOError`, which is
caught and turned into `false`. -/
def export_settings (doc : JObj) (writeOk : Bool) : Bool × Option JObj :=
  if writeOk then (true, some (setKeyJ doc "api_key" (JVal.jstr "")))
  else (false, none)

/-! ## Encryption wrappers

`Fernet.encrypt` / `Fernet.decrypt` are third-party primitives, passed as
parameters `fenc` / `fdec`; everything of `settings.py` around them
(the base64 layers, the key file, the exception handling) is concrete. -/

/-- Key validation of `Fernet(key)`: it succeeds iff `key` is base64 text that decodes to
exactly 32 bytes; otherwise it raises `ValueError`. -/
def fernetKeyOk (key : List Nat) : Bool :=
  match b64decode key with
  | some bs => bs.length == 32
  | none => false

/-- Model of `SettingsManager._encrypt_value`.  No `try` here: a bad key makes
`Fernet(key)` raise out of the function. -/
def encrypt_value (key : List Nat) (fenc : List Nat → List Nat) (value : List Nat) :
    Except PyExc (List Nat) :=
  if value = [] then Except.ok []
  else if fernetKeyOk key then Except.ok (b64encode (fenc value))
  else Except.error PyExc.valueError

/-- Model of `SettingsManager._decrypt_value`.  The stored value can be any JSON
value; after the truthiness check, every exception of the `try` block —
`ValueError` from `Fernet(key)`, `AttributeError` from `.encode()` on a
non-string, `binascii.Error` from `urlsafe_b64decode`, `InvalidToken` from
`decrypt` or `UnicodeDecodeError` from `.decode()` (both folded into
`fdec = none`) — is caught and yields the empty string. -/
def decrypt_value (key : List Nat) (fdec : List Nat → Option (List Nat))
    (encrypted_value : JVal) : List Nat :=
  if pyTruthy encrypted_value = false then []
  else if fernetKeyOk key then
    match encrypted_value with
    | JVal.jstr s =>
        match b64decode (strBytes s) with
        | some ebs =>
            match fdec ebs with
            | some pt => pt
            | none => []
        | none => []
    | _ => []
  else []

/-- Model of `SettingsManager.get_api_key` (`self.get("api_key", "")` followed by
`_decrypt_value`). -/
def get_api_key (key : List Nat) (fdec : List Nat → Option (List Nat)) (doc : JObj) :
    List Nat :=
  decrypt_value key fdec ((lookupJ doc "api_key").getD (JVal.jstr ""))

/-- Model of `SettingsManager.set_api_key`: `self.set("api_key", ...)` walks no
intermediate segment, so it is a single top-level assignment of the
base64 text of the ciphertext. -/
def set_api_key (key : List Nat) (fenc : List Nat → List Nat) (doc : JObj)
    (api_key : List Nat) : Except PyExc JObj :=
  match encrypt_value key fenc api_key with
  | Except.ok ct => Except.ok (setKeyJ doc "api_key" (JVal.jstr (bytesToStr ct)))
  | Except.error e => Except.error e

/-- Model of `SettingsManager._get_encryption_key`.  `raw` stands for
`kdf.derive(password)`, the 32-byte PBKDF2 output for the freshly drawn
salt, and `saltB64` for the encoded salt; both are only produced on the
generation path.  The result pairs the value of `self._encryption_key`
with the key file written, if any.  Only `json.JSONDecodeError` and
`KeyError` are caught. -/
def get_encryption_key (keyFile : FileState) (raw : List Nat) (saltB64 : String) :
    Except PyExc (List Nat × Option JObj) :=
  let key := b64encode raw
  let keyData : JObj := [("key", JVal.jstr (bytesToStr key)), ("salt", JVal.jstr saltB64)]
  let generate : Except PyExc (List Nat × Option JObj) := Except.ok (key, some keyData)
  match keyFile with
  | FileState.missing => generate
  | FileState.readError => Except.error PyExc.ioError
  | FileState.decodeError => Except.error PyExc.unicodeDecodeError
  | FileState.parseError => generate
  | FileState.parsed (JVal.jobj o) =>
      match lookupJ o "key" with
      | none => generate
      | some (JVal.jstr s) =>
          match b64decode (strBytes s) with
          | some bs => Except.ok (bs, none)
          | none => Except.error PyExc.binasciiError
      | some _ => Except.error PyExc.attributeError
  | FileState.parsed _ => Except.error PyExc.typeError

/-! ## Heap embedding (Python object semantics)

`dict.copy()` is shallow and `_deep_update` / `set` mutate dicts in place,
so `self.defaults` and `self.settings` can share nested dict objects.
Dicts live in a heap addressed by allocation index; values hold
references. -/

inductive PVal where
  | pstr (s : String)
  | pint (n : Int)
  | pbool (b : Bool)
  | pnull
  | pref (a : Nat)
deriving Repr, DecidableEq

abbrev PDict := List (String × PVal)

/-- The Python heap: dict object number `a` is `dicts[a]`. -/
structure PHeap where
  dicts : List PDict
deriving Repr, DecidableEq

def readDict (h : PHeap) (a : Nat) : PDict := h.dicts.getD a []

def writeDict (h : PHeap) (a : Nat) (d : PDict) : PHeap := ⟨h.dicts.set a d⟩

/-- Allocate a fresh dict object. -/
def alloc (h : PHeap) (d : PDict) : PHeap × Nat := (⟨h.dicts ++ [d]⟩, h.dicts.length)

def lookupP (d : PDict) (k : String) : Option PVal :=
  match d with
  | [] => none
  | (k', v) :: rest => if k' = k then some v else lookupP rest k

def setKeyP (d : PDict) (k : String) (v : PVal) : PDict :=
  match d with
  | [] => [(k, v)]
  | (k', v') :: rest => if k' = k then (k, v) :: rest else (k', v') :: setKeyP rest k v

/-- Model of `dict.copy()`: a fresh top-level dict sharing all values (shallow). -/
def pyCopy (h : PHeap) (a : Nat) : PHeap × Nat := alloc h (readDict h a)

/-- The walk of `SettingsManager.get` on the heap. -/
def pyGet (h : PHeap) : PVal → List String → Option PVal
  | v, [] => some v
  | PVal.pref a, k :: rest =>
      match lookupP (readDict h a) k with
      | some w => pyGet h w rest
      | none => none
  | _, _ :: _ => none

/-- Model of `SettingsManager.set` on the heap: walk `keys[:-1]`, creating empty
dicts where a segment is missing, then assign the final segment in place.
`none` models the `TypeError` raised when an intermediate value is not a
dict (`key.split('.')` is never empty, so the `[]` case is unreachable). -/
def pySet (h : PHeap) (a : Nat) : List String → PVal → Option PHeap
  | [], _ => none
  | [k], v => some (writeDict h a (setKeyP (readDict h a) k v))
  | k :: k2 :: rest, v =>
      match lookupP (readDict h a) k with
      | some (PVal.pref b) => pySet h b (k2 :: rest) v
      | some _ => none
      | none =>
          let hb := alloc h []
          let h2 := writeDict hb.1 a (setKeyP (readDict hb.1 a) k (PVal.pref hb.2))
          pySet h2 hb.2 (k2 :: rest) v

/-- Heap layout after `SettingsManager.__init__`: addresses 0-3 hold the
nested default dicts, address 4 holds the `self.defaults` top dict. -/
def initHeap (home : String) : PHeap :=
  ⟨[[("sample_rate", PVal.pint 44100), ("channels", PVal.pint 1),
     ("chunk_size", PVal.pint 1024), ("format", PVal.pstr "paInt16")],
    [("language", PVal.pstr "en"), ("model", PVal.pstr "whisper-1"),
     ("temperature", PVal.pint 0), ("prompt", PVal.pstr "")],
    [("window_geometry", PVal.pstr "600x500"), ("theme", PVal.pstr "default")],
    [("auto_save", PVal.pbool false), ("save_directory", PVal.pstr home),
     ("file_format", PVal.pstr "txt")],
    [("api_key", PVal.pstr ""), ("audio", PVal.pref 0), ("transcription", PVal.pref 1),
     ("ui", PVal.pref 2), ("output", PVal.pref 3)]]⟩

def defaultsAddr : Nat := 4

/-- Model of `reset_to_defaults`: `self.settings = self.defaults.copy()` — a shallow
copy of the dict at `defaultsAddr`. -/
def reset_to_defaults (h : PHeap) : PHeap × Nat := pyCopy h defaultsAddr

/-- The scenario refuting C2: fresh store with no config file
(`self.settings = self.defaults.copy()`, the early return of
`_load_settings`), then `set("audio.sample_rate", 16000)`, then
`reset_to_defaults()`; yields the heap and the final `self.settings`
address. -/
def resetScenario (home : String) : Option (PHeap × Nat) :=
  let s0 := pyCopy (initHeap home) defaultsAddr
  match pySet s0.1 s0.2 ["audio", "sample_rate"] (PVal.pint 16000) with
  | some h1 => some (reset_to_defaults h1)
  | none => none

/-- Model of `export_settings` up to serialization, on the heap:
`export_data = self.settings.copy()` then `export_data["api_key"] = ""`
mutates only the fresh copy. -/
def exportCopy (h : PHeap) (a : Nat) : PHeap × Nat :=
  let hc := alloc h (readDict h a)
  (writeDict hc.1 hc.2 (setKeyP (readDict hc.1 hc.2) "api_key" (PVal.pstr "")), hc.2)

/-- Every reference stored in any dict of the heap points to an allocated
dict. -/
def heapClosed (h : PHeap) : Bool :=
  h.dicts.all (fun d => d.all (fun kv =>
    match kv.2 with
    | PVal.pref b => decide (b < h.dicts.length)
    | _ => true))

/-- The value `self.get("api_key", "")` hands to `_decrypt_value`, read on
the heap.  A dict-valued entry maps to `jobj []`: `_decrypt_value` returns
the empty string on every dict (empty dicts are falsy, nonempty ones raise
a caught `AttributeError` from `.encode()`), which is exactly what
`decrypt_value` does on `jobj []`. -/
def jvalOfGet : Option PVal → JVal
  | some (PVal.pstr s) => JVal.jstr s
  | some (PVal.pint n) => JVal.jint n
  | some (PVal.pbool b) => JVal.jbool b
  | some PVal.pnull => JVal.jnull
  | some (PVal.pref _) => JVal.jobj []
  | none => JVal.jstr ""

/-- Model of `SettingsManager.get_api_key` reading through the heap. -/
def get_api_keyH (key : List Nat) (fdec : List Nat → Option (List Nat))
    (h : PHeap) (a : Nat) : List Nat :=
  decrypt_value key fdec (jvalOfGet (pyGet h (PVal.pref a) ["api_key"]))

/-! ## Document well-formedness and merge compatibility -/

/-- Every object inside the value has pairwise distinct keys, as Python
dicts (and hence `json.load` results) do. -/
def wfJ : JVal → Bool
  | JVal.jobj [] => true
  | JVal.jobj ((k, v) :: rest) =>
      (lookupJ rest k).isNone && wfJ v && wfJ (JVal.jobj rest)
  | _ => true

mutual

/-- A loaded document is a partial override of `dflt`: wherever `dflt`
holds a dict at a key also present in the loaded document, the loaded
document holds a dict there too (recursively).  This is what "partial
config file" requires so that `_deep_update` never replaces a whole
default subtree by a leaf. -/
def compatObj (dflt : JObj) : JObj → Bool
  | [] => true
  | (k, v) :: rest => compatVal (lookupJ dflt k) v && compatObj dflt rest
  termination_by l => sizeOf l

def compatVal : Option JVal → JVal → Bool
  | some (JVal.jobj d), JVal.jobj s => compatObj d s
  | some (JVal.jobj _), _ => false
  | _, _ => true
  termination_by _ v => sizeOf v

end

def isLeaf : JVal → Bool
  | JVal.jobj _ => false
  | _ => true

/-- What one key holds after `_deep_update` (in terms of what the two
sides held there). -/
def mergeAt (tv sv : Option JVal) : Option JVal :=
  match sv with
  | none => tv
  | some u => some (mergeVal tv u)

/-! ## Theorems -/

example : lookupJ [("a", JVal.jint 1), ("b", JVal.jstr "x")] "b" = some (JVal.jstr "x") := rfl

theorem char_toNat_ofNat_of_lt (b : Nat) (h : b < 128) : (Char.ofNat b).toNat = b := by
  have hv : b.isValidChar := Or.inl (by omega)
  simp [Char.ofNat, hv, Char.ofNatAux, Char.toNat, UInt32.toNat, BitVec.toNat_ofNatLt]

theorem strBytes_bytesToStr (l : List Nat) (h : ∀ b ∈ l, b < 128) :
    strBytes (bytesToStr l) = l := by
  induction l with
  | nil => rfl
  | cons x xs ih =>
      simp only [strBytes, bytesToStr] at *
      simp only [List.map_cons]
      have hx : (Char.ofNat x).toNat = x := char_toNat_ofNat_of_lt x (h x (by simp))
      have := ih (fun b hb => h b (by simp [hb]))
      simpa [hx] using this

example : b64encode [1, 2, 3] = [65, 81, 73, 68] := by decide

example : b64decode [65, 81, 73, 68] = some [1, 2, 3] := by decide

example : b64decode (strBytes "abc") = none := by decide

theorem toSextets_lt : ∀ (bs : List Nat), (∀ b ∈ bs, b < 256) → ∀ s ∈ toSextets bs, s < 64 := by
  intro bs
  induction bs using toSextets.induct with
  | case1 => intro _ s hs; simp [toSextets] at hs
  | case2 a =>
      intro h s hs
      have ha := h a (by simp)
      simp [toSextets] at hs
      rcases hs with h1 | h1 <;> omega
  | case3 a b =>
      intro h s hs
      have ha := h a (by simp)
      have hb := h b (by simp)
      simp [toSextets] at hs
      rcases hs with h1 | h1 | h1 <;> omega
  | case4 a b c rest ih =>
      intro h s hs
      have ha := h a (by simp)
      have hb := h b (by simp)
      have hc := h c (by simp)
      simp [toSextets] at hs
      rcases hs with h1 | h1 | h1 | h1 | h1
      · omega
      · omega
      · omega
      · omega
      · exact ih (fun x hx => h x (by simp [hx])) s h1

theorem fromSextets_toSextets : ∀ (bs : List Nat), (∀ b ∈ bs, b < 256) →
    fromSextets (toSextets bs) = bs := by
  intro bs
  induction bs using toSextets.induct with
  | case1 => intro _; rfl
  | case2 a =>
      intro h
      have ha := h a (by simp)
      simp [toSextets, fromSextets]
      omega
  | case3 a b =>
      intro h
      have ha := h a (by simp)
      have hb := h b (by simp)
      simp [toSextets, fromSextets]
      constructor <;> omega
  | case4 a b c rest ih =>
      intro h
      have ha := h a (by simp)
      have hb := h b (by simp)
      have hc := h c (by simp)
      simp only [toSextets, fromSextets, List.cons.injEq]
      refine ⟨by omega, by omega, by omega, ih (fun x hx => h x (by simp [hx]))⟩

theorem sextetOfChar_charOfSextet : ∀ s < 64, sextetOfChar (charOfSextet s) = some s := by decide

theorem charOfSextet_ne_61 : ∀ s < 64, charOfSextet s ≠ 61 := by decide

theorem charOfSextet_lt_128 (s : Nat) : charOfSextet s < 128 := by
  unfold charOfSextet
  split
  · omega
  · split
    · omega
    · split
      · omega
      · split <;> omega

theorem filterMap_map_charOfSextet (ss : List Nat) (h : ∀ s ∈ ss, s < 64) :
    (ss.map charOfSextet).filterMap sextetOfChar = ss := by
  induction ss with
  | nil => rfl
  | cons x xs ih =>
      have hx := sextetOfChar_charOfSextet x (h x (by simp))
      simp only [List.map_cons, List.filterMap_cons, hx]
      rw [ih (fun s hs => h s (by simp [hs]))]

theorem filter61_map_charOfSextet (ss : List Nat) (h : ∀ s ∈ ss, s < 64) :
    (ss.map charOfSextet).filter (fun c => decide (c = 61)) = [] := by
  induction ss with
  | nil => rfl
  | cons x xs ih =>
      have hx := charOfSextet_ne_61 x (h x (by simp))
      simp only [List.map_cons, List.filter_cons]
      rw [if_neg (by simp [hx]), ih (fun s hs => h s (by simp [hs]))]

theorem toSextets_len_mod : ∀ bs : List Nat,
    ((toSextets bs).length + (3 - bs.length % 3) % 3) % 4 = 0 ∧
      (toSextets bs).length % 4 ≠ 1 := by
  intro bs
  induction bs using toSextets.induct with
  | case1 => simp [toSextets]
  | case2 a => simp [toSextets]
  | case3 a b => simp [toSextets]
  | case4 a b c rest ih =>
      simp only [toSextets, List.length_cons] at *
      omega

/-- Round-trip of the base64url model: decoding an encoding recovers the
bytes (the property `_decrypt_value` relies on to undo `_encrypt_value`). -/
theorem b64decode_b64encode (bs : List Nat) (h : ∀ b ∈ bs, b < 256) :
    b64decode (b64encode bs) = some bs := by
  have h64 := toSextets_lt bs h
  have hlen := toSextets_len_mod bs
  unfold b64decode b64encode
  rw [List.filterMap_append, List.filter_append,
    filterMap_map_charOfSextet _ h64, filter61_map_charOfSextet _ h64]
  have hrep1 : (List.replicate ((3 - bs.length % 3) % 3) 61).filterMap sextetOfChar = [] := by
    induction ((3 - bs.length % 3) % 3) with
    | zero => rfl
    | succ n ihn => simp [List.replicate_succ, List.filterMap_cons, sextetOfChar, ihn]
  have hrep2 : (List.replicate ((3 - bs.length % 3) % 3) 61).filter
      (fun c => decide (c = 61)) = List.replicate ((3 - bs.length % 3) % 3) 61 := by
    apply List.filter_eq_self.2
    intro x hx
    simp [List.eq_of_mem_replicate hx]
  rw [hrep1, hrep2]
  simp only [List.append_nil, List.nil_append, List.length_replicate]
  rw [if_pos ⟨hlen.1, hlen.2⟩]
  rw [fromSextets_toSextets bs h]

theorem fromSextets_length : ∀ l : List Nat, 4 * (fromSextets l).length ≤ 3 * l.length + 8 := by
  intro l
  induction l using fromSextets.induct with
  | case1 => simp [fromSextets]
  | case2 s => simp [fromSextets]
  | case3 s0 s1 => simp [fromSextets]
  | case4 s0 s1 s2 => simp [fromSextets]
  | case5 s0 s1 s2 s3 rest ih =>
      simp only [fromSextets, List.length_cons] at *
      omega

/-- Any successful decode of `n` input bytes yields at most about `3n/4`
bytes; in particular 32 input bytes can never decode to 32 bytes. -/
theorem b64decode_length (l out : List Nat) (h : b64decode l = some out) :
    4 * out.length ≤ 3 * l.length + 8 := by
  simp only [b64decode] at h
  split at h
  · cases h
    have h1 := fromSextets_length (l.filterMap sextetOfChar)
    have h2 : (l.filterMap sextetOfChar).length ≤ l.length := l.length_filterMap_le _
    omega
  · exact absurd h (by simp)

theorem b64encode_lt_128 (bs : List Nat) : ∀ x ∈ b64encode bs, x < 128 := by
  intro x hx
  unfold b64encode at hx
  rcases List.mem_append.1 hx with hm | hm
  · rcases List.mem_map.1 hm with ⟨s, _, rfl⟩
    exact charOfSextet_lt_128 s
  · have := List.eq_of_mem_replicate hm
    omega

theorem b64encode_ne_nil (a : Nat) (rest : List Nat) : b64encode (a :: rest) ≠ [] := by
  unfold b64encode
  intro hc
  have h1 : (toSextets (a :: rest)).map charOfSextet = [] := (List.append_eq_nil.1 hc).1
  have h2 : toSextets (a :: rest) ≠ [] := by
    cases rest with
    | nil => simp [toSextets]
    | cons b r2 => cases r2 <;> simp [toSextets]
  exact h2 (List.map_eq_nil_iff.1 h1)

theorem lookupJ_setKeyJ_self (o : JObj) (k : String) (v : JVal) :
    lookupJ (setKeyJ o k v) k = some v := by
  induction o with
  | nil => simp [setKeyJ, lookupJ]
  | cons kv rest ih =>
      obtain ⟨k', v'⟩ := kv
      by_cases hk : k' = k
      · simp [setKeyJ, lookupJ, hk]
      · simp [setKeyJ, lookupJ, hk, ih]

theorem lookupJ_setKeyJ_ne (o : JObj) (k k' : String) (v : JVal) (h : k ≠ k') :
    lookupJ (setKeyJ o k v) k' = lookupJ o k' := by
  induction o with
  | nil => simp [setKeyJ, lookupJ, h]
  | cons kv rest ih =>
      obtain ⟨k0, v0⟩ := kv
      by_cases hk : k0 = k
      · subst hk
        simp [setKeyJ, lookupJ, h]
      · simp [setKeyJ, lookupJ, hk, ih]

theorem wfJ_cons (k : String) (v : JVal) (rest : JObj)
    (h : wfJ (JVal.jobj ((k, v) :: rest)) = true) :
    (lookupJ rest k).isNone = true ∧ wfJ v = true ∧ wfJ (JVal.jobj rest) = true := by
  rw [wfJ] at h
  simp only [Bool.and_eq_true] at h
  exact ⟨h.1.1, h.1.2, h.2⟩

theorem wfJ_lookup (s : JObj) (k : String) (u : JVal)
    (hw : wfJ (JVal.jobj s) = true) (hl : lookupJ s k = some u) : wfJ u = true := by
  induction s with
  | nil => simp [lookupJ] at hl
  | cons kv rest ih =>
      obtain ⟨k0, v0⟩ := kv
      obtain ⟨_, hv0, hrest⟩ := wfJ_cons k0 v0 rest hw
      by_cases hk : k0 = k
      · rw [lookupJ, if_pos hk] at hl
        cases hl
        exact hv0
      · rw [lookupJ, if_neg hk] at hl
        exact ih hrest hl

theorem compatObj_cons (dflt : JObj) (k : String) (v : JVal) (rest : JObj)
    (h : compatObj dflt ((k, v) :: rest) = true) :
    compatVal (lookupJ dflt k) v = true ∧ compatObj dflt rest = true := by
  rw [compatObj, Bool.and_eq_true] at h
  exact h

/-- From compatibility: where the target holds a dict and the source has
the key, the source value is a dict compatible with the target's. -/
theorem compatObj_lookup (t s : JObj) (k : String) (d : JObj) (u : JVal)
    (hc : compatObj t s = true) (ht : lookupJ t k = some (JVal.jobj d))
    (hs : lookupJ s k = some u) :
    ∃ s', u = JVal.jobj s' ∧ compatObj d s' = true := by
  induction s with
  | nil => simp [lookupJ] at hs
  | cons kv rest ih =>
      obtain ⟨k0, v0⟩ := kv
      obtain ⟨h0, hrest⟩ := compatObj_cons t k0 v0 rest hc
      by_cases hk : k0 = k
      · subst hk
        rw [lookupJ, if_pos rfl] at hs
        cases hs
        rw [ht] at h0
        cases u with
        | jobj s' => exact ⟨s', rfl, by simp [compatVal] at h0; exact h0⟩
        | jstr a => simp [compatVal] at h0
        | jint a => simp [compatVal] at h0
        | jbool a => simp [compatVal] at h0
        | jnull => simp [compatVal] at h0
      · rw [lookupJ, if_neg hk] at hs
        exact ih hrest hs

/-- Key-wise characterisation of `_deep_update` for unique-keyed sources. -/
theorem lookupJ_deep_update (s : JObj) : ∀ (t : JObj) (k : String),
    wfJ (JVal.jobj s) = true →
    lookupJ (deep_update t s) k = mergeAt (lookupJ t k) (lookupJ s k) := by
  induction s with
  | nil => intro t k _; rw [deep_update]; rfl
  | cons kv rest ih =>
      intro t k hw
      obtain ⟨k0, v0⟩ := kv
      obtain ⟨huniq, _, hrest⟩ := wfJ_cons k0 v0 rest hw
      rw [deep_update, ih _ k hrest]
      by_cases hk : k0 = k
      · subst hk
        rw [lookupJ, if_pos rfl]
        have hrk : lookupJ rest k0 = none := by
          cases hr : lookupJ rest k0
          · rfl
          · rw [hr] at huniq; simp at huniq
        rw [hrk, lookupJ_setKeyJ_self]
        rfl
      · rw [lookupJ, if_neg hk, lookupJ_setKeyJ_ne _ _ _ _ hk]

theorem mergeVal_none (u : JVal) : mergeVal none u = u := by
  cases u <;> simp [mergeVal]

theorem mergeVal_obj_obj (d s' : JObj) :
    mergeVal (some (JVal.jobj d)) (JVal.jobj s') = JVal.jobj (deep_update d s') := by
  rw [mergeVal]

theorem mergeVal_leaf_tv (w u : JVal) (h : isLeaf w = true) : mergeVal (some w) u = u := by
  cases w <;> cases u <;> simp [mergeVal, isLeaf] at *

theorem mergeVal_obj_leaf (d : JObj) (u : JVal) (h : isLeaf u = true) :
    mergeVal (some (JVal.jobj d)) u = u := by
  cases u <;> simp [mergeVal, isLeaf] at *

theorem getPath_leaf_cons (v : JVal) (k : String) (rest : List String)
    (h : isLeaf v = true) : getPath v (k :: rest) = none := by
  cases v <;> simp [getPath, isLeaf] at *

theorem getPath_obj_cons_some (o : JObj) (k : String) (rest : List String) (v : JVal)
    (h : lookupJ o k = some v) :
    getPath (JVal.jobj o) (k :: rest) = getPath v rest := by
  rw [getPath, h]

theorem getPath_obj_cons_none (o : JObj) (k : String) (rest : List String)
    (h : lookupJ o k = none) :
    getPath (JVal.jobj o) (k :: rest) = none := by
  rw [getPath, h]

/-- Paths that resolve in the target still resolve after `_deep_update`
with a compatible source. -/
theorem getPath_deep_update_isSome : ∀ (p : List String) (t s : JObj),
    wfJ (JVal.jobj s) = true → compatObj t s = true →
    (getPath (JVal.jobj t) p).isSome = true →
    (getPath (JVal.jobj (deep_update t s)) p).isSome = true := by
  intro p
  induction p with
  | nil => intro t s _ _ _; rw [getPath]; rfl
  | cons k rest ih =>
      intro t s hw hc hh
      cases htk : lookupJ t k with
      | none => rw [getPath_obj_cons_none t k rest htk] at hh; simp at hh
      | some v =>
          rw [getPath_obj_cons_some t k rest v htk] at hh
          have hmerge := lookupJ_deep_update s t k hw
          rw [htk] at hmerge
          cases hsk : lookupJ s k with
          | none =>
              rw [hsk] at hmerge
              have hm2 : lookupJ (deep_update t s) k = some v := by rw [hmerge]; rfl
              rw [getPath_obj_cons_some _ k rest v hm2]
              exact hh
          | some u =>
              rw [hsk] at hmerge
              have hm2 : lookupJ (deep_update t s) k = some (mergeVal (some v) u) := by
                rw [hmerge]; rfl
              rw [getPath_obj_cons_some _ k rest _ hm2]
              cases rest with
              | nil => rw [getPath]; rfl
              | cons r rs =>
                  cases v with
                  | jobj d =>
                      obtain ⟨s', rfl, hc'⟩ := compatObj_lookup t s k d u hc htk hsk
                      rw [mergeVal_obj_obj]
                      exact ih d s' (wfJ_lookup s k _ hw hsk) hc' hh
                  | jstr a => rw [getPath_leaf_cons (JVal.jstr a) r rs rfl] at hh; simp at hh
                  | jint a => rw [getPath_leaf_cons (JVal.jint a) r rs rfl] at hh; simp at hh
                  | jbool a => rw [getPath_leaf_cons (JVal.jbool a) r rs rfl] at hh; simp at hh
                  | jnull => rw [getPath_leaf_cons JVal.jnull r rs rfl] at hh; simp at hh

/-- Leaf values of the source always win: any path that resolves to a
non-dict value in the source resolves to that value in the merge. -/
theorem getPath_deep_update_leaf : ∀ (p : List String) (t s : JObj),
    wfJ (JVal.jobj s) = true →
    ∀ v, getPath (JVal.jobj s) p = some v → isLeaf v = true →
    getPath (JVal.jobj (deep_update t s)) p = some v := by
  intro p
  induction p with
  | nil =>
      intro t s _ v hv hleaf
      rw [getPath] at hv
      cases hv
      simp [isLeaf] at hleaf
  | cons k rest ih =>
      intro t s hw v hv hleaf
      cases hsk : lookupJ s k with
      | none => rw [getPath_obj_cons_none s k rest hsk] at hv; cases hv
      | some u =>
          rw [getPath_obj_cons_some s k rest u hsk] at hv
          have hmerge := lookupJ_deep_update s t k hw
          rw [hsk] at hmerge
          have hm2 : lookupJ (deep_update t s) k = some (mergeVal (lookupJ t k) u) := by
            rw [hmerge]; rfl
          rw [getPath_obj_cons_some _ k rest _ hm2]
          cases htk : lookupJ t k with
          | none => rw [mergeVal_none]; exact hv
          | some w =>
              cases w with
              | jobj d =>
                  cases u with
                  | jobj s' =>
                      rw [mergeVal_obj_obj]
                      exact ih d s' (wfJ_lookup s k _ hw hsk) v hv hleaf
                  | jstr a => rw [mergeVal_obj_leaf d (JVal.jstr a) rfl]; exact hv
                  | jint a => rw [mergeVal_obj_leaf d (JVal.jint a) rfl]; exact hv
                  | jbool a => rw [mergeVal_obj_leaf d (JVal.jbool a) rfl]; exact hv
                  | jnull => rw [mergeVal_obj_leaf d JVal.jnull rfl]; exact hv
              | jstr a => rw [mergeVal_leaf_tv (JVal.jstr a) u rfl]; exact hv
              | jint a => rw [mergeVal_leaf_tv (JVal.jint a) u rfl]; exact hv
              | jbool a => rw [mergeVal_leaf_tv (JVal.jbool a) u rfl]; exact hv
              | jnull => rw [mergeVal_leaf_tv JVal.jnull u rfl]; exact hv

/-- Paths the source does not resolve keep their target value after
`_deep_update` with a compatible source. -/
theorem getPath_deep_update_untouched : ∀ (p : List String) (t s : JObj),
    wfJ (JVal.jobj s) = true → compatObj t s = true →
    getPath (JVal.jobj s) p = none →
    getPath (JVal.jobj (deep_update t s)) p = getPath (JVal.jobj t) p := by
  intro p
  induction p with
  | nil => intro t s _ _ hv; rw [getPath] at hv; cases hv
  | cons k rest ih =>
      intro t s hw hc hnone
      have hmerge := lookupJ_deep_update s t k hw
      cases hsk : lookupJ s k with
      | none =>
          rw [hsk] at hmerge
          have hm2 : lookupJ (deep_update t s) k = lookupJ t k := by rw [hmerge]; rfl
          cases htk : lookupJ t k with
          | none =>
              rw [getPath_obj_cons_none _ k rest (hm2.trans htk),
                getPath_obj_cons_none t k rest htk]
          | some w =>
              rw [getPath_obj_cons_some _ k rest w (hm2.trans htk),
                getPath_obj_cons_some t k rest w htk]
      | some u =>
          rw [getPath_obj_cons_some s k rest u hsk] at hnone
          rw [hsk] at hmerge
          have hm2 : lookupJ (deep_update t s) k = some (mergeVal (lookupJ t k) u) := by
            rw [hmerge]; rfl
          rw [getPath_obj_cons_some _ k rest _ hm2]
          cases htk : lookupJ t k with
          | none =>
              rw [mergeVal_none, getPath_obj_cons_none t k rest htk]
              exact hnone
          | some w =>
              rw [getPath_obj_cons_some t k rest w htk]
              cases w with
              | jobj d =>
                  cases u with
                  | jobj s' =>
                      rw [mergeVal_obj_obj]
                      obtain ⟨s2, heq, hc2⟩ := compatObj_lookup t s k d _ hc htk hsk
                      injection heq with heq2
                      subst heq2
                      exact ih d s' (wfJ_lookup s k _ hw hsk) hc2 hnone
                  | jstr a =>
                      obtain ⟨s', heq, _⟩ := compatObj_lookup t s k d _ hc htk hsk
                      cases heq
                  | jint a =>
                      obtain ⟨s', heq, _⟩ := compatObj_lookup t s k d _ hc htk hsk
                      cases heq
                  | jbool a =>
                      obtain ⟨s', heq, _⟩ := compatObj_lookup t s k d _ hc htk hsk
                      cases heq
                  | jnull =>
                      obtain ⟨s', heq, _⟩ := compatObj_lookup t s k d _ hc htk hsk
                      cases heq
              | jstr a =>
                  rw [mergeVal_leaf_tv (JVal.jstr a) u rfl]
                  cases rest with
                  | nil => rw [getPath] at hnone; cases hnone
                  | cons r rs =>
                      rw [getPath_leaf_cons (JVal.jstr a) r rs rfl]
                      exact hnone
              | jint a =>
                  rw [mergeVal_leaf_tv (JVal.jint a) u rfl]
                  cases rest with
                  | nil => rw [getPath] at hnone; cases hnone
                  | cons r rs =>
                      rw [getPath_leaf_cons (JVal.jint a) r rs rfl]
                      exact hnone
              | jbool a =>
                  rw [mergeVal_leaf_tv (JVal.jbool a) u rfl]
                  cases rest with
                  | nil => rw [getPath] at hnone; cases hnone
                  | cons r rs =>
                      rw [getPath_leaf_cons (JVal.jbool a) r rs rfl]
                      exact hnone
              | jnull =>
                  rw [mergeVal_leaf_tv JVal.jnull u rfl]
                  cases rest with
                  | nil => rw [getPath] at hnone; cases hnone
                  | cons r rs =>
                      rw [getPath_leaf_cons JVal.jnull r rs rfl]
                      exact hnone

/-- Keys absent from the source are untouched by `_deep_update` (no
uniqueness needed: `lookupJ s k = none` says no binding of `k` exists). -/
theorem lookupJ_deep_update_not_in (s : JObj) : ∀ (t : JObj) (k : String),
    lookupJ s k = none → lookupJ (deep_update t s) k = lookupJ t k := by
  induction s with
  | nil => intro t k _; rw [deep_update]
  | cons kv rest ih =>
      intro t k hs
      obtain ⟨k0, v0⟩ := kv
      rw [lookupJ] at hs
      by_cases hk : k0 = k
      · rw [if_pos hk] at hs; cases hs
      · rw [if_neg hk] at hs
        rw [deep_update, ih _ k hs, lookupJ_setKeyJ_ne _ _ _ _ hk]

theorem lookupJ_delKey (o : JObj) (k : String) : lookupJ (delKey o k) k = none := by
  induction o with
  | nil => rfl
  | cons kv rest ih =>
      obtain ⟨k0, v0⟩ := kv
      by_cases h : k0 = k
      · simp only [delKey, List.filter_cons] at *
        rw [if_neg (by simp [h])]
        exact ih
      · simp only [delKey, List.filter_cons] at *
        rw [if_pos (by simp [h]), lookupJ, if_neg h]
        exact ih

theorem bytesToStr_ne_empty (l : List Nat) (h : l ≠ []) : bytesToStr l ≠ "" := by
  cases l with
  | nil => exact absurd rfl h
  | cons x xs =>
      intro hc
      have : (bytesToStr (x :: xs)).data = ("" : String).data := by rw [hc]
      simp [bytesToStr] at this

/-! ## Claims -/

/-- C8: the claim's blanket "unreadable content or failure to parse as
JSON never raises" fails on a file whose bytes are not valid UTF-8:
`json.load` raises `UnicodeDecodeError` there, which
`except (json.JSONDecodeError, IOError)` does not catch, so
`import_settings` raises instead of returning `false` (first conjunct).
For the caught failures — an unreadable file (`IOError`), a missing file
(`FileNotFoundError`, an `IOError`), and text that is not valid JSON
(`json.JSONDecodeError`) — it returns `false`, raises nothing, and leaves
the in-memory document exactly as it was, for every current document. -/
theorem claim_C8_import_atomic_on_failure (doc : JObj) :
    import_settings doc FileState.decodeError = Except.error PyExc.unicodeDecodeError ∧
    import_settings doc FileState.readError = Except.ok (false, doc) ∧
    import_settings doc FileState.parseError = Except.ok (false, doc) ∧
    import_settings doc FileState.missing = Except.ok (false, doc) :=
  ⟨rfl, rfl, rfl, rfl⟩

/-- C6: importing any parsed JSON object leaves both the stored `api_key`
field and `get_api_key()` unchanged, for every current document — the
`api_key` key is deleted from the imported data before `_deep_update`. -/
theorem claim_C6_import_never_sets_credential (doc : JObj) (o : JObj)
    (key : List Nat) (fdec : List Nat → Option (List Nat)) :
    ∃ doc', import_settings doc (FileState.parsed (JVal.jobj o)) = Except.ok (true, doc') ∧
      lookupJ doc' "api_key" = lookupJ doc "api_key" ∧
      get_api_key key fdec doc' = get_api_key key fdec doc := by
  refine ⟨deep_update doc (delKey o "api_key"), rfl, ?_, ?_⟩
  · exact lookupJ_deep_update_not_in _ doc _ (lookupJ_delKey o "api_key")
  · unfold get_api_key
    rw [lookupJ_deep_update_not_in _ doc _ (lookupJ_delKey o "api_key")]

/-- C7: a successful export writes the current document with `api_key`
forced to the empty string and every other top-level field unchanged, for
every store state; an I/O failure is caught and returns `false`. -/
theorem claim_C7_export_strips_secret (doc : JObj) :
    (∃ out, export_settings doc true = (true, some out) ∧
      lookupJ out "api_key" = some (JVal.jstr "") ∧
      ∀ k, k ≠ "api_key" → lookupJ out k = lookupJ doc k) ∧
    export_settings doc false = (false, none) := by
  refine ⟨⟨setKeyJ doc "api_key" (JVal.jstr ""), rfl, lookupJ_setKeyJ_self doc _ _, ?_⟩, rfl⟩
  intro k hk
  exact lookupJ_setKeyJ_ne doc _ k _ (Ne.symm hk)

theorem claim_C7_witness :
    ∃ out, export_settings [("api_key", JVal.jstr "QQ=="), ("x", JVal.jint 5)] true
        = (true, some out) ∧
      lookupJ out "api_key" = some (JVal.jstr "") ∧
      lookupJ out "x" = some (JVal.jint 5) := by
  obtain ⟨⟨out, h1, h2, h3⟩, _⟩ :=
    claim_C7_export_strips_secret [("api_key", JVal.jstr "QQ=="), ("x", JVal.jint 5)]
  exact ⟨out, h1, h2, (h3 "x" (by decide)).trans rfl⟩

/-- C9: `get_api_key` never raises, for every stored value and every
behaviour of the decryption primitive: either it returns the empty string
(stored value missing, empty or falsy, non-string, key rejected by
`Fernet`, base64 failure, or failed decryption), or the whole pipeline
succeeded and it returns the decrypted plaintext. -/
theorem claim_C9_get_api_key_never_fails (key : List Nat)
    (fdec : List Nat → Option (List Nat)) (doc : JObj) :
    get_api_key key fdec doc = [] ∨
    (∃ s ebs pt, (lookupJ doc "api_key").getD (JVal.jstr "") = JVal.jstr s ∧
      pyTruthy (JVal.jstr s) = true ∧ fernetKeyOk key = true ∧
      b64decode (strBytes s) = some ebs ∧ fdec ebs = some pt ∧
      get_api_key key fdec doc = pt) := by
  unfold get_api_key
  cases htr : pyTruthy ((lookupJ doc "api_key").getD (JVal.jstr "")) with
  | false => left; unfold decrypt_value; rw [htr]; rfl
  | true =>
      cases hko : fernetKeyOk key with
      | false => left; unfold decrypt_value; rw [htr, hko]; rfl
      | true =>
          cases hv : (lookupJ doc "api_key").getD (JVal.jstr "") with
          | jstr s =>
              cases hb : b64decode (strBytes s) with
              | none =>
                  left; unfold decrypt_value
                  simp [htr, hko, hb]
              | some ebs =>
                  cases hd : fdec ebs with
                  | none =>
                      left; unfold decrypt_value
                      simp [htr, hko, hb, hd]
                  | some pt =>
                      right
                      have htr2 : pyTruthy (JVal.jstr s) = true := hv ▸ htr
                      refine ⟨s, ebs, pt, rfl, htr2, rfl, hb, hd, ?_⟩
                      unfold decrypt_value
                      simp [htr2, hko, hb, hd]
          | jint n => left; unfold decrypt_value; simp [htr, hko]
          | jbool b => left; unfold decrypt_value; simp [htr, hko]
          | jnull => left; unfold decrypt_value; simp [htr, hko]
          | jobj o => left; unfold decrypt_value; simp [htr, hko]

/-- A raw (not base64-encoded) 32-byte value can never be a valid `Fernet`
key: base64-decoding 32 bytes yields at most 26 bytes. -/
theorem fernetKeyOk_of_len32 (raw : List Nat) (h : raw.length = 32) :
    fernetKeyOk raw = false := by
  unfold fernetKeyOk
  cases hb : b64decode raw with
  | none => rfl
  | some out =>
      have hlen := b64decode_length raw out hb
      have hne : out.length ≠ 32 := by omega
      simpa using hne

/-- C4: within one instance (a key accepted by `Fernet` and its
encrypt/decrypt pair, whose library contract at the given plaintext is the
stated hypotheses), decrypting an encryption recovers the plaintext, and
the empty string bypasses encryption in both directions. -/
theorem claim_C4_roundtrip (key : List Nat) (fenc : List Nat → List Nat)
    (fdec : List Nat → Option (List Nat)) (s : List Nat)
    (hkey : fernetKeyOk key = true)
    (hrt : fdec (fenc s) = some s)
    (hne : s ≠ [] → fenc s ≠ [])
    (hbytes : ∀ b ∈ fenc s, b < 256) :
    (∃ ct, encrypt_value key fenc s = Except.ok ct ∧
      decrypt_value key fdec (JVal.jstr (bytesToStr ct)) = s) ∧
    encrypt_value key fenc [] = Except.ok [] ∧
    decrypt_value key fdec (JVal.jstr "") = [] := by
  refine ⟨?_, rfl, rfl⟩
  by_cases hsnil : s = []
  · subst hsnil
    exact ⟨[], rfl, rfl⟩
  · have hne2 : fenc s ≠ [] := hne hsnil
    have hctne : b64encode (fenc s) ≠ [] := by
      cases hfe : fenc s with
      | nil => exact absurd hfe hne2
      | cons a r => exact b64encode_ne_nil a r
    refine ⟨b64encode (fenc s), ?_, ?_⟩
    · unfold encrypt_value
      rw [if_neg hsnil, if_pos hkey]
    · have hstr : bytesToStr (b64encode (fenc s)) ≠ "" := bytesToStr_ne_empty _ hctne
      have htr : pyTruthy (JVal.jstr (bytesToStr (b64encode (fenc s)))) = true := by
        unfold pyTruthy
        simp [hstr]
      have hsb : strBytes (bytesToStr (b64encode (fenc s))) = b64encode (fenc s) :=
        strBytes_bytesToStr _ (b64encode_lt_128 (fenc s))
      unfold decrypt_value
      simp [htr, hkey, hsb, b64decode_b64encode (fenc s) hbytes, hrt]

theorem claim_C4_witness :
    (∃ ct, encrypt_value (b64encode (List.range 32)) (fun v => 0 :: v) [104, 105]
        = Except.ok ct ∧
      decrypt_value (b64encode (List.range 32)) (fun v => some (v.drop 1))
        (JVal.jstr (bytesToStr ct)) = [104, 105]) ∧
    encrypt_value (b64encode (List.range 32)) (fun v => 0 :: v) [] = Except.ok [] ∧
    decrypt_value (b64encode (List.range 32)) (fun v => some (v.drop 1))
      (JVal.jstr "") = [] :=
  claim_C4_roundtrip (b64encode (List.range 32)) (fun v => 0 :: v)
    (fun v => some (v.drop 1)) [104, 105] (by decide) (by decide)
    (fun _ => by decide) (by decide)

/-- C3: of the corrupt key-file contents, only invalid JSON and a missing
`"key"` entry regenerate a key; a `"key"` string that is not valid base64
(here `"abc"`, whose padding is wrong) raises `binascii.Error` out of the
constructor, and an unreadable key file raises `IOError` — both
contradicting "opening the store does not raise; a new key is generated
and persisted". -/
theorem claim_C3_key_file_degradation (raw : List Nat) (saltB64 : String) :
    get_encryption_key (FileState.parsed (JVal.jobj [("key", JVal.jstr "abc")])) raw saltB64
      = Except.error PyExc.binasciiError ∧
    get_encryption_key FileState.readError raw saltB64 = Except.error PyExc.ioError ∧
    get_encryption_key FileState.parseError raw saltB64
      = Except.ok (b64encode raw,
          some [("key", JVal.jstr (bytesToStr (b64encode raw))),
                ("salt", JVal.jstr saltB64)]) ∧
    get_encryption_key FileState.missing raw saltB64
      = Except.ok (b64encode raw,
          some [("key", JVal.jstr (bytesToStr (b64encode raw))),
                ("salt", JVal.jstr saltB64)]) :=
  ⟨rfl, rfl, rfl, rfl⟩

/-- C1: credential persistence across instances fails.  The first instance
generates and stores the base64 text of the key; the second instance
base64-decodes that text, recovering the raw 32 bytes instead of the
base64-encoded key `Fernet` needs, so `Fernet(key)` is rejected in the new
instance, and `get_api_key` there returns the empty string for every
stored ciphertext and every decryption primitive — never the saved
plaintext. -/
theorem claim_C1_persistence_broken (raw : List Nat) (saltB64 : String)
    (h32 : raw.length = 32) (hbytes : ∀ b ∈ raw, b < 256) :
    get_encryption_key FileState.missing raw saltB64
      = Except.ok (b64encode raw,
          some [("key", JVal.jstr (bytesToStr (b64encode raw))),
                ("salt", JVal.jstr saltB64)]) ∧
    (∀ raw2 salt2,
      get_encryption_key (FileState.parsed (JVal.jobj
          [("key", JVal.jstr (bytesToStr (b64encode raw))),
           ("salt", JVal.jstr saltB64)])) raw2 salt2
        = Except.ok (raw, none)) ∧
    fernetKeyOk (b64encode raw) = true ∧
    fernetKeyOk raw = false ∧
    (∀ fdec doc, get_api_key raw fdec doc = []) := by
  refine ⟨rfl, ?_, ?_, fernetKeyOk_of_len32 raw h32, ?_⟩
  · intro raw2 salt2
    have hs : strBytes (bytesToStr (b64encode raw)) = b64encode raw :=
      strBytes_bytesToStr _ (b64encode_lt_128 raw)
    simp [get_encryption_key, lookupJ, hs, b64decode_b64encode raw hbytes]
  · unfold fernetKeyOk
    rw [b64decode_b64encode raw hbytes]
    simp [h32]
  · intro fdec doc
    unfold get_api_key decrypt_value
    simp [fernetKeyOk_of_len32 raw h32]

theorem claim_C1_witness :
    (List.range 32).length = 32 ∧
    fernetKeyOk (b64encode (List.range 32)) = true ∧
    fernetKeyOk (List.range 32) = false ∧
    (∀ fdec doc, get_api_key (List.range 32) fdec doc = []) := by
  obtain ⟨-, -, h3, h4, h5⟩ :=
    claim_C1_persistence_broken (List.range 32) "s" (by decide) (by decide)
  exact ⟨by decide, h3, h4, h5⟩

/-- C5: the claim's "loading an unparseable config file never raises"
fails on a config file whose bytes are not valid UTF-8: `json.load`'s
`UnicodeDecodeError` escapes `except (json.JSONDecodeError, IOError)` and
the constructor raises (first conjunct).  The rest of the claim holds: a
missing or unreadable file, or text that is not valid JSON, yields the
defaults without raising; on a parsed partial config (a unique-keyed
object compatible with the default schema) every path of the default
schema still resolves, loaded leaf values win (this also covers unknown
extra keys, which are leaf paths of the loaded file), untouched default
paths keep their default value, and the concrete partial override keeps
sibling defaults. -/
theorem claim_C5_load_merge (home : String) :
    load_settings home FileState.decodeError = Except.error PyExc.unicodeDecodeError ∧
    load_settings home FileState.missing = Except.ok (defaults home) ∧
    load_settings home FileState.readError = Except.ok (defaults home) ∧
    load_settings home FileState.parseError = Except.ok (defaults home) ∧
    (∀ o : JObj, wfJ (JVal.jobj o) = true → compatObj (defaults home) o = true →
      ∃ m, load_settings home (FileState.parsed (JVal.jobj o)) = Except.ok m ∧
        (∀ p, (getPath (JVal.jobj (defaults home)) p).isSome = true →
          (getPath (JVal.jobj m) p).isSome = true) ∧
        (∀ p v, getPath (JVal.jobj o) p = some v → isLeaf v = true →
          getPath (JVal.jobj m) p = some v) ∧
        (∀ p, getPath (JVal.jobj o) p = none →
          getPath (JVal.jobj m) p = getPath (JVal.jobj (defaults home)) p)) ∧
    (∃ m, load_settings home (FileState.parsed (JVal.jobj
        [("audio", JVal.jobj [("sample_rate", JVal.jint 16000)])])) = Except.ok m ∧
      getJ m ["audio", "sample_rate"] JVal.jnull = JVal.jint 16000 ∧
      getJ m ["audio", "channels"] JVal.jnull = JVal.jint 1) := by
  refine ⟨rfl, rfl, rfl, rfl, ?_, ?_⟩
  · intro o hw hc
    refine ⟨deep_update (defaults home) o, rfl, ?_, ?_, ?_⟩
    · intro p hp
      exact getPath_deep_update_isSome p (defaults home) o hw hc hp
    · intro p v hv hleaf
      exact getPath_deep_update_leaf p (defaults home) o hw v hv hleaf
    · intro p hp
      exact getPath_deep_update_untouched p (defaults home) o hw hc hp
  · refine ⟨_, rfl, ?_, ?_⟩
    all_goals
      rw [deep_update, deep_update]
      rw [show lookupJ (defaults home) "audio" = some (JVal.jobj
        [("sample_rate", JVal.jint 44100), ("channels", JVal.jint 1),
         ("chunk_size", JVal.jint 1024), ("format", JVal.jstr "paInt16")]) from rfl]
      rw [mergeVal_obj_obj, deep_update, deep_update]
      rw [show lookupJ [("sample_rate", JVal.jint 44100), ("channels", JVal.jint 1),
         ("chunk_size", JVal.jint 1024), ("format", JVal.jstr "paInt16")] "sample_rate"
        = some (JVal.jint 44100) from rfl]
      rw [mergeVal_leaf_tv (JVal.jint 44100) (JVal.jint 16000) rfl]
      rfl

theorem claim_C5_witness :
    ∃ m, load_settings "home" (FileState.parsed (JVal.jobj
        [("audio", JVal.jobj [("sample_rate", JVal.jint 16000)])])) = Except.ok m ∧
      (getPath (JVal.jobj m) ["audio", "channels"]).isSome = true := by
  obtain ⟨m, h1, h2, h3, h4⟩ := (claim_C5_load_merge "home").2.2.2.2.1
    [("audio", JVal.jobj [("sample_rate", JVal.jint 16000)])]
    (by simp [wfJ, lookupJ])
    (by simp [compatObj, compatVal, defaults, lookupJ])
  exact ⟨m, h1, h2 ["audio", "channels"] (by simp [defaults, getPath, lookupJ])⟩

/-- C2: `reset_to_defaults` does not restore the documented defaults.
`defaults.copy()` is shallow, so `set("audio.sample_rate", 16000)` on a
fresh store mutated the `audio` dict shared between `self.settings` and
`self.defaults`; after `reset_to_defaults()` the store still returns
16000, while the documented default (read off a fresh instance's
`defaults`) is 44100. -/
theorem claim_C2_reset_keeps_mutation (home : String) :
    (resetScenario home).map
        (fun hs => pyGet hs.1 (PVal.pref hs.2) ["audio", "sample_rate"])
      = some (some (PVal.pint 16000)) ∧
    pyGet (initHeap home) (PVal.pref defaultsAddr) ["audio", "sample_rate"]
      = some (PVal.pint 44100) :=
  ⟨rfl, rfl⟩

theorem lookupP_mem (d : PDict) (k : String) (w : PVal) (h : lookupP d k = some w) :
    (k, w) ∈ d := by
  induction d with
  | nil => cases h
  | cons kv rest ih =>
      obtain ⟨k', v⟩ := kv
      rw [lookupP] at h
      by_cases hk : k' = k
      · rw [if_pos hk] at h
        cases h
        subst hk
        exact List.mem_cons_self _ _
      · rw [if_neg hk] at h
        exact List.mem_cons_of_mem _ (ih h)

theorem heapClosed_lookup (h : PHeap) (hcl : heapClosed h = true) (b : Nat)
    (hb : b < h.dicts.length) (k : String) (b' : Nat)
    (hlk : lookupP (readDict h b) k = some (PVal.pref b')) : b' < h.dicts.length := by
  have hrd : readDict h b = h.dicts[b] := by
    unfold readDict
    rw [List.getD_eq_getElem?_getD, List.getElem?_eq_getElem hb]
    rfl
  have hmem : (k, PVal.pref b') ∈ h.dicts[b] := by
    rw [← hrd]
    exact lookupP_mem _ _ _ hlk
  unfold heapClosed at hcl
  rw [List.all_eq_true] at hcl
  have hd := hcl h.dicts[b] (List.getElem_mem hb)
  rw [List.all_eq_true] at hd
  have := hd (k, PVal.pref b') hmem
  exact of_decide_eq_true this

/-- Frame property of the heap: allocating one dict and writing only to the
fresh address changes no read through existing values (all references in a
closed heap point below the allocation point). -/
theorem pyGet_frame (h : PHeap) (d d' : PDict) (hcl : heapClosed h = true) :
    ∀ (p : List String) (v : PVal), (∀ b, v = PVal.pref b → b < h.dicts.length) →
      pyGet (writeDict ⟨h.dicts ++ [d]⟩ h.dicts.length d') v p = pyGet h v p := by
  intro p
  induction p with
  | nil => intro v _; cases v <;> rfl
  | cons k rest ih =>
      intro v hv
      cases v with
      | pstr s => rfl
      | pint n => rfl
      | pbool b => rfl
      | pnull => rfl
      | pref b =>
          have hb : b < h.dicts.length := hv b rfl
          have hrd : readDict (writeDict ⟨h.dicts ++ [d]⟩ h.dicts.length d') b
              = readDict h b := by
            unfold readDict writeDict
            rw [List.getD_eq_getElem?_getD, List.getD_eq_getElem?_getD,
              List.getElem?_set_ne (by omega), List.getElem?_append_left hb]
          cases hlk : lookupP (readDict h b) k with
          | none => rw [pyGet, pyGet, hrd, hlk]
          | some w =>
              have hw : ∀ b2, w = PVal.pref b2 → b2 < h.dicts.length := by
                intro b2 hbw
                subst hbw
                exact heapClosed_lookup h hcl b hb k b2 hlk
              rw [pyGet, pyGet, hrd, hlk]
              exact ih w hw

/-- C10: `export_settings` leaves the in-memory document unchanged: the
shallow copy and the `api_key` blanking touch only the freshly allocated
dict, so every `get` walk from the settings dict, and `get_api_key`, read
the same values after the export as before. -/
theorem claim_C10_export_frame (h : PHeap) (a : Nat)
    (hcl : heapClosed h = true) (ha : a < h.dicts.length) :
    (∀ p, pyGet (exportCopy h a).1 (PVal.pref a) p = pyGet h (PVal.pref a) p) ∧
    (∀ key fdec, get_api_keyH key fdec (exportCopy h a).1 a = get_api_keyH key fdec h a) := by
  have hframe : ∀ p, pyGet (exportCopy h a).1 (PVal.pref a) p = pyGet h (PVal.pref a) p := by
    intro p
    exact pyGet_frame h (readDict h a) _ hcl p (PVal.pref a)
      (by intro b hb; cases hb; exact ha)
  refine ⟨hframe, ?_⟩
  intro key fdec
  unfold get_api_keyH
  rw [hframe ["api_key"]]

theorem claim_C10_witness :
    pyGet (exportCopy (initHeap "h") 4).1 (PVal.pref 4) ["audio", "sample_rate"]
      = pyGet (initHeap "h") (PVal.pref 4) ["audio", "sample_rate"] :=
  (claim_C10_export_frame (initHeap "h") 4 rfl (by decide)).1 ["audio", "sample_rate"]

end Speech2Text
